import Mathlib

/-!
Verification of the class-resolution and conversation-state core of the
`telegram_bot_cv` repository (files `bot.py` and `detection.py`).

The Python code is shallowly embedded: pure functions become Lean
functions, the per-user session dictionary becomes a `Session` structure,
and the fallible detection/segmentation capability calls become explicit
`Except` outcomes.  Python floats are embedded as exact rationals (`ℚ`):
every numeric constant of the source (`1.0`, `0.8`, `0.6`) and every
similarity quotient is an exact small rational.

Because rational division does not reduce inside the Lean kernel, the
executable match pipeline carries similarity scores as explicit
numerator/denominator pairs of naturals (`simFrac`) and compares them by
cross-multiplication; the lemmas `calculate_similarity_eq_simFrac`,
`simFrac_lt_iff` and `simFrac_gt_threshold_iff` prove that this
representation computes exactly the rational-valued similarity of the
source and orders scores exactly as the source's comparisons do.

Character-domain note: Python's `str.lower`, `\w` and `\s` are Unicode
aware.  The program's vocabulary, messages and user-facing tokens live in
the ASCII and Cyrillic repertoires, so the embedding models `lower`, the
word-character class and the whitespace class on that repertoire (ASCII
alphanumerics, underscore, the Cyrillic letters А-Я/а-я/Ё/ё, ASCII
whitespace) and treats every other character as a non-word, non-space
character.
-/

namespace BotCV

/-- Python `str.lower`, restricted to the ASCII and Cyrillic repertoire:
`A`-`Z` map down by 0x20, `А`-`Я` (0x410-0x42F) map down by 0x20,
`Ё` (0x401) maps to `ё` (0x451); every other character is fixed. -/
def pyLower (c : Char) : Char :=
  if 0x41 ≤ c.toNat ∧ c.toNat ≤ 0x5A then Char.ofNat (c.toNat + 0x20)
  else if 0x410 ≤ c.toNat ∧ c.toNat ≤ 0x42F then Char.ofNat (c.toNat + 0x20)
  else if c.toNat = 0x401 then Char.ofNat 0x451
  else c

/-- Python `str.lower` on a whole string. -/
def lowerStr (s : String) : String :=
  String.mk (s.data.map pyLower)

/-- `bot.py`, `calculate_similarity` (lines 320-352): returns `1.0` on exact
equality, `0.8` when one string occurs inside the other, else the Jaccard
index of the two character sets, with `0.0` when the union of the
character sets is empty.  Python `set(str)` becomes `List.toFinset` of the
character list; Python `a in b` on strings is contiguous-substring
containment, embedded as `List.IsInfix` on the character lists. -/
def calculate_similarity (str1 str2 : String) : ℚ :=
  if str1 = str2 then 1
  else if str1.data <:+: str2.data ∨ str2.data <:+: str1.data then 4/5
  else
    let common := str1.data.toFinset ∩ str2.data.toFinset
    let total := str1.data.toFinset ∪ str2.data.toFinset
    if total = ∅ then 0
    else (common.card : ℚ) / (total.card : ℚ)

/-- Executable refinement of `calculate_similarity`: the same case split,
but returning the similarity as an unnormalised (numerator, denominator)
pair of naturals, so that the whole match pipeline reduces inside the
kernel.  `calculate_similarity_eq_simFrac` ties it to the source mirror. -/
def simFrac (str1 str2 : String) : ℕ × ℕ :=
  if str1 = str2 then (1, 1)
  else if str1.data <:+: str2.data ∨ str2.data <:+: str1.data then (4, 5)
  else
    let common := str1.data.toFinset ∩ str2.data.toFinset
    let total := str1.data.toFinset ∪ str2.data.toFinset
    if total = ∅ then (0, 1)
    else (common.card, total.card)

/-- Strict comparison of two similarity scores in the fraction
representation, by cross-multiplication. -/
def fracLt (a b : ℕ × ℕ) : Bool :=
  a.1 * b.2 < b.1 * a.2

/-- The source's threshold test `score > 0.6` on a similarity value is
computed exactly by cross-multiplication against `3/5`. -/
def fracGtThreshold (a : ℕ × ℕ) : Bool :=
  3 * a.2 < 5 * a.1

/-- Python `\s` on the modelled repertoire: the six ASCII whitespace
characters space, tab, newline, carriage return, vertical tab, form feed. -/
def pyIsSpace (c : Char) : Bool :=
  c.toNat == 0x20 || c.toNat == 0x9 || c.toNat == 0xA || c.toNat == 0xD ||
    c.toNat == 0xB || c.toNat == 0xC

/-- The regex class `а-яё` of `parse_user_classes`: lowercase Cyrillic
`а`-`я` (0x430-0x44F) plus `ё` (0x451). -/
def isCyrLowerChar (c : Char) : Bool :=
  (0x430 ≤ c.toNat && c.toNat ≤ 0x44F) || c.toNat == 0x451

/-- Python `\w` on the modelled repertoire: ASCII digits, ASCII letters,
underscore, and the Cyrillic letters `А`-`я` (0x410-0x44F) plus `Ё`/`ё`. -/
def pyIsWordChar (c : Char) : Bool :=
  (0x30 ≤ c.toNat && c.toNat ≤ 0x39) || (0x41 ≤ c.toNat && c.toNat ≤ 0x5A) ||
    (0x61 ≤ c.toNat && c.toNat ≤ 0x7A) || c.toNat == 0x5F ||
    (0x410 ≤ c.toNat && c.toNat ≤ 0x44F) || c.toNat == 0x401 || c.toNat == 0x451

/-- Characters kept by the substitution `re.sub(r'[^\w\s,;а-яё]', ' ', ...)`
of `parse_user_classes` (`bot.py` line 233): the complement of the negated
class, i.e. word characters, whitespace, comma, semicolon, `а-яё`. -/
def keepChar (c : Char) : Bool :=
  pyIsWordChar c || pyIsSpace c || c.toNat == 0x2C || c.toNat == 0x3B || isCyrLowerChar c

/-- The separator class of `re.split(r'[,;\s]+', ...)` (`bot.py` line 236). -/
def isSepChar (c : Char) : Bool :=
  c.toNat == 0x2C || c.toNat == 0x3B || pyIsSpace c

/-- `bot.py`, `parse_user_classes` (lines 216-245): lower-case, replace every
character outside `[\w\s,;а-яё]` by a space, split on separator characters,
keep the pieces of length at least 2.

Two inessential differences from the Python text, both invisible in the
output: `re.split` on the class `[,;\s]+` splits on runs of separators
(producing no interior empty pieces), while `List.splitOnP` splits at each
separator (producing interior empty pieces between adjacent separators);
the pieces differ only by empty strings, all of which the length-2 filter
discards.  Likewise Python's `cls.strip()` is the identity on every piece,
because every whitespace character is itself a separator. -/
def parse_user_classes (text : String) : List String :=
  let lowered := text.data.map pyLower
  let substituted := lowered.map fun c => if keepChar c then c else ' '
  let pieces := substituted.splitOnP isSepChar
  (pieces.filter fun t => 2 ≤ t.length).map fun t => String.mk t

/-- Characters kept according to the wording of claim C5: alphanumeric
(ASCII digits and letters), whitespace, comma, semicolon, or a Cyrillic
letter.  Note the absence of the underscore. -/
def keepCharClaim (c : Char) : Bool :=
  (0x30 ≤ c.toNat && c.toNat ≤ 0x39) || (0x41 ≤ c.toNat && c.toNat ≤ 0x5A) ||
    (0x61 ≤ c.toNat && c.toNat ≤ 0x7A) ||
    pyIsSpace c || c.toNat == 0x2C || c.toNat == 0x3B ||
    (0x410 ≤ c.toNat && c.toNat ≤ 0x44F) || c.toNat == 0x401 || c.toNat == 0x451

/-- The tokenizer exactly as claim C5 words it: lower-case, replace every
character that is not alphanumeric, whitespace, comma, semicolon or a
Cyrillic letter by a space, split on runs of separators, discard tokens
shorter than 2 characters. -/
def tokenizeClaim (text : String) : List String :=
  let lowered := text.data.map pyLower
  let substituted := lowered.map fun c => if keepCharClaim c then c else ' '
  let runPieces := (substituted.splitOnP isSepChar).filter fun t => t ≠ []
  (runPieces.filter fun t => 2 ≤ t.length).map fun t => String.mk t

/-- Characters kept according to the amended claim C5: as the claim words
it, plus the underscore (Python's `\w` includes `_`). -/
def keepCharAmended (c : Char) : Bool :=
  keepCharClaim c || c.toNat == 0x5F

/-- The tokenizer as the amended claim C5 words it: identical to
`tokenizeClaim` except that the underscore is also kept. -/
def tokenizeAmended (text : String) : List String :=
  let lowered := text.data.map pyLower
  let substituted := lowered.map fun c => if keepCharAmended c then c else ' '
  let runPieces := (substituted.splitOnP isSepChar).filter fun t => t ≠ []
  (runPieces.filter fun t => 2 ≤ t.length).map fun t => String.mk t

/-- `detection.py`, `self.class_translations` (lines 57-138): the fixed
English-to-Russian vocabulary of the 80 COCO classes, in insertion order.
Python 3.7+ dicts iterate in insertion order, so `.items()` traversals in
`bot.py` visit exactly this list in this order. -/
def class_translations : List (String × String) :=
  [("person", "человек"),
   ("bicycle", "велосипед"),
   ("car", "автомобиль"),
   ("motorcycle", "мотоцикл"),
   ("airplane", "самолет"),
   ("bus", "автобус"),
   ("train", "поезд"),
   ("truck", "грузовик"),
   ("boat", "лодка"),
   ("traffic light", "светофор"),
   ("fire hydrant", "пожарный гидрант"),
   ("stop sign", "знак стоп"),
   ("parking meter", "паркомат"),
   ("bench", "скамейка"),
   ("bird", "птица"),
   ("cat", "кот"),
   ("dog", "собака"),
   ("horse", "лошадь"),
   ("sheep", "овца"),
   ("cow", "корова"),
   ("elephant", "слон"),
   ("bear", "медведь"),
   ("zebra", "зебра"),
   ("giraffe", "жираф"),
   ("backpack", "рюкзак"),
   ("umbrella", "зонт"),
   ("handbag", "сумка"),
   ("tie", "галстук"),
   ("suitcase", "чемодан"),
   ("frisbee", "фрисби"),
   ("skis", "лыжи"),
   ("snowboard", "сноуборд"),
   ("sports ball", "мяч"),
   ("kite", "воздушный змей"),
   ("baseball bat", "бейсбольная бита"),
   ("baseball glove", "бейсбольная перчатка"),
   ("skateboard", "скейтборд"),
   ("surfboard", "доска для серфинга"),
   ("tennis racket", "теннисная ракетка"),
   ("bottle", "бутылка"),
   ("wine glass", "бокал"),
   ("cup", "чашка"),
   ("fork", "вилка"),
   ("knife", "нож"),
   ("spoon", "ложка"),
   ("bowl", "миска"),
   ("banana", "банан"),
   ("apple", "яблоко"),
   ("sandwich", "сэндвич"),
   ("orange", "апельсин"),
   ("broccoli", "брокколи"),
   ("carrot", "морковь"),
   ("hot dog", "хот-дог"),
   ("pizza", "пицца"),
   ("donut", "пончик"),
   ("cake", "торт"),
   ("chair", "стул"),
   ("couch", "диван"),
   ("potted plant", "растение в горшке"),
   ("bed", "кровать"),
   ("dining table", "обеденный стол"),
   ("toilet", "туалет"),
   ("tv", "телевизор"),
   ("laptop", "ноутбук"),
   ("mouse", "мышь"),
   ("remote", "пульт"),
   ("keyboard", "клавиатура"),
   ("cell phone", "телефон"),
   ("microwave", "микроволновка"),
   ("oven", "духовка"),
   ("toaster", "тостер"),
   ("sink", "раковина"),
   ("refrigerator", "холодильник"),
   ("book", "книга"),
   ("clock", "часы"),
   ("vase", "ваза"),
   ("scissors", "ножницы"),
   ("teddy bear", "плюшевый мишка"),
   ("hair drier", "фен"),
   ("toothbrush", "зубная щетка")]

/-- Level 1 of `match_user_classes_to_detected` (`bot.py` lines 270-276):
the first detected class whose lower-cased name equals the token. -/
def resolveExactCanonical (tok : String) (detected : List String) : Option String :=
  detected.find? fun d => tok == lowerStr d

/-- Level 2 of `match_user_classes_to_detected` (`bot.py` lines 281-287):
the Russian side of the first vocabulary entry whose lower-cased English
name equals the token and whose Russian name is among the detected
classes. -/
def resolveExactAlternate (tok : String) (detected : List String) : Option String :=
  (class_translations.find? fun er =>
    tok == lowerStr er.1 && detected.contains er.2).map fun er => er.2

/-- One update step of the fuzzy search of `match_user_classes_to_detected`
(`bot.py` lines 297-309): replace the running best when the candidate's
score strictly exceeds both the running best score and the `0.6`
threshold.  `cand` is the string scored against the token, `target` the
Russian class recorded on success. -/
def fuzzyStep (tok : String) (acc : (ℕ × ℕ) × Option String)
    (cand target : String) : (ℕ × ℕ) × Option String :=
  let score := simFrac tok cand
  if fracLt acc.1 score && fracGtThreshold score then (score, some target) else acc

/-- Level 3 of `match_user_classes_to_detected` (`bot.py` lines 292-309):
scan the detected Russian names (in detection order), then every
vocabulary entry (in table order) whose Russian name is detected, keeping
the single strictly-best-scoring candidate above the `0.6` threshold.
`best_score` starts at `0`, represented as the fraction `(0, 1)`. -/
def fuzzyBest (tok : String) (detected : List String) : Option String :=
  let acc1 := detected.foldl (fun acc d => fuzzyStep tok acc (lowerStr d) d)
    (((0 : ℕ), (1 : ℕ)), none)
  let acc2 := class_translations.foldl
    (fun acc er => if detected.contains er.2 then fuzzyStep tok acc (lowerStr er.1) er.2 else acc)
    acc1
  acc2.2

/-- Accumulator of the token loop of `match_user_classes_to_detected`:
`valid` / `invalid` / `suggestions` of `bot.py` lines 263-265.  The source
renders each suggestion as the formatted string `'token' → 'class'` at
append time; the embedding keeps the underlying (token, class) pair, which
determines that string. -/
structure MatchAcc where
  valid : List String
  invalid : List String
  suggestions : List (String × String)
deriving DecidableEq, Repr

/-- The body of the `for user_class in user_classes` loop of
`match_user_classes_to_detected` (`bot.py` lines 267-316): exact canonical
match, else exact alternate match, else fuzzy match, each deduplicating
against `valid`; a fuzzy hit whose target is already in `valid` falls into
the `else` branch and is appended to `invalid`. -/
def processToken (detected : List String) (acc : MatchAcc) (tok : String) : MatchAcc :=
  match resolveExactCanonical tok detected with
  | some d =>
      if acc.valid.contains d then acc
      else { acc with valid := acc.valid ++ [d] }
  | none =>
    match resolveExactAlternate tok detected with
    | some r =>
        if acc.valid.contains r then acc
        else { acc with valid := acc.valid ++ [r] }
    | none =>
      match fuzzyBest tok detected with
      | some b =>
          if acc.valid.contains b then
            { acc with invalid := acc.invalid ++ [tok] }
          else
            { acc with
                valid := acc.valid ++ [b]
                suggestions := acc.suggestions ++ [(tok, b)] }
      | none => { acc with invalid := acc.invalid ++ [tok] }

/-- `bot.py`, `match_user_classes_to_detected` (lines 247-318): fold the
token loop over the user's tokens, starting from empty accumulators, and
return `(valid_classes, invalid_classes, suggestions)`. -/
def match_user_classes_to_detected (user_classes detected : List String) :
    List String × List String × List (String × String) :=
  let acc := user_classes.foldl (processToken detected) ⟨[], [], []⟩
  (acc.valid, acc.invalid, acc.suggestions)

/-- Raw image payloads are opaque to the conversation core. -/
abbrev Bytes := List ℕ

/-- The three values the source ever assigns to `session['state']`. -/
inductive SessState
  | waiting_photo
  | waiting_class_selection
  | processing_segmentation
deriving DecidableEq, Repr

/-- One user's session dictionary (`bot.py` `self.user_sessions[user_id]`).
Keys other than `state` are present only after a successful detection, so
they are modelled as `Option` fields; a fresh `/start` session is
`⟨waiting_photo, none, none, none, none, none⟩`. -/
structure Session where
  state : SessState
  image_bytes : Option Bytes
  detected_classes : Option (List String)
  class_counts : Option (List (String × ℕ))
  annotated_image_bytes : Option Bytes
  selected_classes : Option (List String)
deriving DecidableEq, Repr

/-- An outbound message: plain text, or a photo with a caption. -/
inductive OutMsg
  | text (s : String)
  | photo (caption : String)
deriving DecidableEq, Repr

/-- Modelled from the spec: the repository's `config.py` (the module that
holds the bot token and the fixed message texts `START_MESSAGE`,
`HELP_MESSAGE`, `PHOTO_RECEIVED`, `DETECTION_COMPLETE`,
`SEGMENTATION_START`, `ERROR_NO_OBJECTS`, `ERROR_NO_PHOTO`,
`ERROR_PROCESSING`) is not under `src/`; the claims treat these texts as
opaque markers, so each constant is modelled as a distinct marker string. -/
def ERROR_PROCESSING : String := "ERROR_PROCESSING"

/-- Modelled from the spec: marker for `config.ERROR_NO_OBJECTS`. -/
def ERROR_NO_OBJECTS : String := "ERROR_NO_OBJECTS"

/-- Modelled from the spec: marker for `config.PHOTO_RECEIVED`. -/
def PHOTO_RECEIVED : String := "PHOTO_RECEIVED"

/-- Modelled from the spec: marker for `config.SEGMENTATION_START`. -/
def SEGMENTATION_START : String := "SEGMENTATION_START"

/-- Modelled from the spec: marker for `config.ERROR_NO_PHOTO`. -/
def ERROR_NO_PHOTO : String := "ERROR_NO_PHOTO"

/-- Modelled from the spec: marker for `config.DETECTION_COMPLETE`
formatted with the class list (`bot.py` line 169). -/
def DETECTION_COMPLETE (classesList : String) : String :=
  "DETECTION_COMPLETE " ++ classesList

/-- The literal sent by `handle_photo` when the detector failed to
initialise (`bot.py` line 104). -/
def DETECTOR_UNAVAILABLE : String :=
  "Детектор объектов недоступен. Попробуйте позже."

/-- The literal sent by `perform_segmentation` when the detector is absent
(`bot.py` line 452). -/
def DETECTOR_UNAVAILABLE_SHORT : String := "Детектор недоступен"

/-- The literal sent by `handle_class_selection` when parsing yields no
tokens (`bot.py` lines 376-379). -/
def PARSE_FAIL : String :=
  "Не удалось распознать классы. Попробуйте еще раз. Например: car person bicycle"

/-- Python `class_counts.get(cls, 0)`: association-list lookup with
default `0`. -/
def countsGet (counts : List (String × ℕ)) (k : String) : ℕ :=
  match counts.find? fun p => p.1 == k with
  | some p => p.2
  | none => 0

/-- The reverse vocabulary lookup used by `handle_photo`,
`handle_class_selection` and `send_final_summary`: the first English name
whose Russian translation equals the given class, if any. -/
def english_for (rus : String) : Option String :=
  (class_translations.find? fun er => er.2 == rus).map fun er => er.1

/-- The class list text of `handle_photo` (`bot.py` lines 142-147): one
numbered line per detected class with its count. -/
def classesListText (detected : List String) (counts : List (String × ℕ)) : String :=
  String.intercalate "\n"
    (detected.map fun cls => "• " ++ cls ++ " (" ++ toString (countsGet counts cls) ++ " шт.)")

/-- The input hint of `handle_photo` (`bot.py` lines 149-166): English
names where known (else the Russian original), first five only, with an
ellipsis when more than five classes were detected. -/
def hintText (detected : List String) : String :=
  let english_classes := detected.map fun r =>
    match english_for r with
    | some e => e
    | none => r
  let base := String.intercalate " " (english_classes.take 5)
  if 5 < english_classes.length then base ++ " ..." else base

/-- `bot.py`, `handle_photo` (lines 90-177), as a pure per-user transition.
Inputs: whether the detector initialised, the prior session (if any), the
downloaded photo bytes, and the outcome of the external
`detector.detect_objects` call — `Except.error` when that call raises.
Output: the session after the handler (unchanged on every path except a
successful non-empty detection, which replaces it wholesale) and the
outbound messages in send order.  The annotated-image send and the
detection-complete text follow a successful detection; an exception from
the detection call is caught at line 174 and answered with
`ERROR_PROCESSING`. -/
def handle_photo (detectorAvailable : Bool) (prior : Option Session)
    (photoBytes : Bytes)
    (detection : Except Unit (List String × List (String × ℕ) × Bytes)) :
    Option Session × List OutMsg :=
  if detectorAvailable = false then
    (prior, [OutMsg.text DETECTOR_UNAVAILABLE])
  else
    match detection with
    | Except.error _ =>
        (prior, [OutMsg.text PHOTO_RECEIVED, OutMsg.text ERROR_PROCESSING])
    | Except.ok (detected, counts, annotated) =>
      if detected = [] then
        (prior, [OutMsg.text PHOTO_RECEIVED, OutMsg.text ERROR_NO_OBJECTS])
      else
        (some { state := SessState.waiting_class_selection
                image_bytes := some photoBytes
                detected_classes := some detected
                class_counts := some counts
                annotated_image_bytes := some annotated
                selected_classes := none },
         [OutMsg.text PHOTO_RECEIVED,
          OutMsg.photo "Найденные объекты отмечены рамками",
          OutMsg.text (DETECTION_COMPLETE (classesListText detected counts) ++
            " Пример: " ++ hintText detected)])

/-- The per-class suggestion block of `handle_class_selection`
(`bot.py` lines 396-398); the source renders each pair with quote marks,
omitted here. -/
def suggestionsText (suggestions : List (String × String)) : String :=
  String.intercalate "\n" (suggestions.map fun p => "  • " ++ p.1 ++ " → " ++ p.2)

/-- The available-classes hint of `handle_class_selection`
(`bot.py` lines 405-419): English name where known, else the Russian. -/
def availableText (detected : List String) : String :=
  String.intercalate ", " (detected.map fun r =>
    match english_for r with
    | some e => e
    | none => r)

/-- The response composition of `handle_class_selection`
(`bot.py` lines 387-419): a selected-classes section (with corrections, if
any), then a not-found section (with the available classes), joined with
blank lines. -/
def selectionResponse (detected : List String)
    (r : List String × List String × List (String × String)) : String :=
  let validPart :=
    if r.1 ≠ [] then
      ["Выбраны классы: " ++ String.intercalate ", " r.1] ++
        (if r.2.2 ≠ [] then ["Исправления:\n" ++ suggestionsText r.2.2] else [])
    else []
  let invalidPart :=
    if r.2.1 ≠ [] then
      ["Не найдены: " ++ String.intercalate ", " r.2.1,
       "Доступные: " ++ availableText detected]
    else []
  String.intercalate "\n\n" (validPart ++ invalidPart)

/-- `bot.py`, `handle_class_selection` (lines 354-437), as a pure
transition on one session, up to and including the state change at lines
430-431 and the `SEGMENTATION_START` notice; the subsequent synchronous
`perform_segmentation` call (line 437) is modelled separately.  A missing
`detected_classes`/`class_counts` key would raise `KeyError` (there is no
`try` in this handler); the registered error handler `handle_error`
answers `ERROR_PROCESSING`, which the final case models. -/
def handle_class_selection (session : Session) (text : String) :
    Session × List OutMsg :=
  match session.detected_classes, session.class_counts with
  | some detected, some _counts =>
    let user_classes := parse_user_classes text
    if user_classes = [] then
      (session, [OutMsg.text PARSE_FAIL])
    else
      let r := match_user_classes_to_detected user_classes detected
      if r.1 = [] then
        (session, [OutMsg.text (selectionResponse detected r)])
      else
        ({ session with
             selected_classes := some r.1
             state := SessState.processing_segmentation },
         [OutMsg.text (selectionResponse detected r),
          OutMsg.text SEGMENTATION_START])
  | _, _ => (session, [OutMsg.text ERROR_PROCESSING])

/-- `bot.py`, `send_final_summary` (lines 496-542): successful classes with
their detection counts, failed classes with an English retry hint where
known, the total over successful classes when positive, and a closing
invitation; the source renders the hints with quote marks, omitted here. -/
def final_summary (successful failed : List String)
    (counts : List (String × ℕ)) : String :=
  let okPart :=
    if successful ≠ [] then
      ["Результаты сегментации:"] ++
        successful.map (fun c => "• " ++ c ++ ": " ++ toString (countsGet counts c) ++ " шт.")
    else []
  let failPart :=
    if failed ≠ [] then
      ["Не удалось сегментировать:"] ++
        failed.map fun c =>
          match english_for c with
          | some e => "• " ++ c ++ " (попробуйте " ++ e ++ ")"
          | none => "• " ++ c
    else []
  let total := (successful.map fun c => countsGet counts c).sum
  let totalPart := if 0 < total then ["Всего обработано объектов: " ++ toString total] else []
  String.intercalate "\n" (okPart ++ failPart ++ totalPart ++ ["Отправьте новое фото для анализа!"])

/-- `bot.py`, `perform_segmentation` (lines 439-494), as a pure transition
on one session.  `segOutcome` is the outcome of the external
`detector.segment_objects` call: `Except.ok` carries the returned
class-to-mask mapping, `Except.error` models the call raising.  Paths:
detector absent — message only, session untouched (line 451-453, still
inside `try`, completing without reset); segmentation raises — the
`except` at line 491 answers `ERROR_PROCESSING` and the state reset at
line 489 is skipped; success — per-class mask photos for the selected
classes found in the mapping (in selection order), the final summary, and
the state reset to `waiting_photo`.  A missing session key would raise
`KeyError` inside the `try`, landing in the same `except` path. -/
def perform_segmentation (detectorAvailable : Bool) (session : Session)
    (segOutcome : Except Unit (List (String × Bytes))) :
    Session × List OutMsg :=
  if detectorAvailable = false then
    (session, [OutMsg.text DETECTOR_UNAVAILABLE_SHORT])
  else
    match session.selected_classes, session.image_bytes, session.class_counts with
    | some selected, some _img, some counts =>
      match segOutcome with
      | Except.error _ => (session, [OutMsg.text ERROR_PROCESSING])
      | Except.ok results =>
        let successful := selected.filter fun c => (results.map fun p => p.1).contains c
        let failed := selected.filter fun c => !(results.map fun p => p.1).contains c
        let photoMsgs := successful.map fun c => OutMsg.photo ("Сегментация: " ++ c)
        ({ session with state := SessState.waiting_photo },
         photoMsgs ++ [OutMsg.text (final_summary successful failed counts)])
    | _, _, _ => (session, [OutMsg.text ERROR_PROCESSING])

/-- Invariant carried by the token loop of
`match_user_classes_to_detected`: the resolved list has no duplicates and
only detected classes; every suggestion pair points at a resolved class,
was not exactly resolvable, and is what the fuzzy search returns for its
token; there are never more suggestions than resolved classes. -/
def MatchInv (detected : List String) (acc : MatchAcc) : Prop :=
  acc.valid.Nodup ∧ (∀ c ∈ acc.valid, c ∈ detected) ∧
  (∀ p ∈ acc.suggestions, p.2 ∈ acc.valid ∧
    resolveExactCanonical p.1 detected = none ∧
    resolveExactAlternate p.1 detected = none ∧
    fuzzyBest p.1 detected = some p.2) ∧
  acc.suggestions.length ≤ acc.valid.length

/-- How one token resolves: exactly (level 1 or 2), fuzzily (level 3), or
not at all. -/
inductive Resolution
  | exactR (c : String)
  | fuzzyR (c : String)
  | unresolvedR
deriving DecidableEq, Repr

/-- The per-token resolution order of `match_user_classes_to_detected`
(`bot.py` lines 267-316), exactly as `processToken` consults the three
levels: exact canonical first, then exact alternate, then fuzzy. -/
def tokenResolution (tok : String) (detected : List String) : Resolution :=
  match resolveExactCanonical tok detected with
  | some d => Resolution.exactR d
  | none =>
    match resolveExactAlternate tok detected with
    | some r => Resolution.exactR r
    | none =>
      match fuzzyBest tok detected with
      | some b => Resolution.fuzzyR b
      | none => Resolution.unresolvedR

/-- The source's fuzzy selection rule over an explicit candidate list:
fold left, replacing the running best exactly when a candidate's score
strictly exceeds both the running best score (initially `0`) and the
`0.6` threshold. -/
def selectBest (cands : List ((ℕ × ℕ) × String)) : Option String :=
  (cands.foldl (fun acc c =>
    if fracLt acc.1 c.1 && fracGtThreshold c.1 then (c.1, some c.2) else acc)
    (((0 : ℕ), (1 : ℕ)), none)).2

/-- The fuzzy candidate list in the order claim C3 states it: canonical
names in `detectedClasses` order, then alternate names of detected
classes, also in `detectedClasses` order (each detected class contributing
the vocabulary entries that translate to it).  Scores are carried in the
exact-fraction representation so the list is kernel-computable. -/
def fuzzyCandidatesClaim (tok : String) (detected : List String) :
    List ((ℕ × ℕ) × String) :=
  detected.map (fun d => (simFrac tok (lowerStr d), d)) ++
  detected.flatMap (fun d =>
    (class_translations.filter fun er => er.2 == d).map
      fun er => (simFrac tok (lowerStr er.1), d))

/-- Per-token resolution as claim C3 states it: exact canonical, else
exact alternate, else the source's strictly-better selection over the
claim's candidate order (alternates in `detectedClasses` order). -/
def tokenResolutionClaim (tok : String) (detected : List String) : Resolution :=
  match detected.find? (fun d => lowerStr d == tok) with
  | some d => Resolution.exactR d
  | none =>
    match class_translations.find?
        (fun er => lowerStr er.1 == tok && detected.contains er.2) with
    | some er => Resolution.exactR er.2
    | none =>
      match selectBest (fuzzyCandidatesClaim tok detected) with
      | some b => Resolution.fuzzyR b
      | none => Resolution.unresolvedR

/-- The rational value of a similarity score in the fraction
representation. -/
def ratioQ (f : ℕ × ℕ) : ℚ := (f.1 : ℚ) / (f.2 : ℚ)

/-- View a fraction-scored candidate as a rationally scored one. -/
def toQCand (c : (ℕ × ℕ) × String) : ℚ × String := (ratioQ c.1, c.2)

/-- One update step of the source's fuzzy selection over an explicit
candidate list (fraction scores). -/
def stepFrac (acc : (ℕ × ℕ) × Option String) (c : (ℕ × ℕ) × String) :
    (ℕ × ℕ) × Option String :=
  if fracLt acc.1 c.1 && fracGtThreshold c.1 then (c.1, some c.2) else acc

/-- The source's fuzzy candidate list: canonical names in `detectedClasses`
order, then the vocabulary entries whose Russian name is detected, in
vocabulary-table order. -/
def fuzzyCandidates (tok : String) (detected : List String) :
    List ((ℕ × ℕ) × String) :=
  detected.map (fun d => (simFrac tok (lowerStr d), d)) ++
  (class_translations.filter fun er => detected.contains er.2).map
    fun er => (simFrac tok (lowerStr er.1), er.2)

/-- The source's fuzzy candidate list with rational scores, as the amended
claim words it. -/
def fuzzyCandidatesAmended (tok : String) (detected : List String) :
    List (ℚ × String) :=
  detected.map (fun d => (calculate_similarity tok (lowerStr d), d)) ++
  (class_translations.filter fun er => detected.contains er.2).map
    fun er => (calculate_similarity tok (lowerStr er.1), er.2)

/-- One update step of the fuzzy selection with rational scores. -/
def stepQ (acc : ℚ × Option String) (c : ℚ × String) : ℚ × Option String :=
  if acc.1 < c.1 ∧ (3 : ℚ)/5 < c.1 then (c.1, some c.2) else acc

/-- The fuzzy selection with rational scores, starting from score `0`. -/
def selectBestQ (cands : List (ℚ × String)) : Option String :=
  (cands.foldl stepQ (0, none)).2

/-- The maximum of a base score and all candidate scores. -/
def maxFrom (s : ℚ) (cands : List (ℚ × String)) : ℚ :=
  cands.foldl (fun a c => max a c.1) s

/-- The selection rule exactly as the claim words it: among the candidates
whose score strictly exceeds `0.6`, the first one attaining the maximal
score (ties broken in favour of the first candidate encountered). -/
def bestAbove (cands : List (ℚ × String)) : Option String :=
  (cands.find? fun c =>
    decide ((3 : ℚ)/5 < c.1) && decide (c.1 = maxFrom 0 cands)).map fun c => c.2

/-- Per-token resolution as the amended claim C3 words it: exact canonical
match (first detected class whose lower-cased name is the token), else
exact alternate match (first vocabulary entry whose lower-cased English
name is the token and whose Russian name is detected), else the
highest-similarity candidate above the `0.6` threshold — canonical names
in detection order before alternate names in vocabulary-table order, first
maximal candidate winning ties. -/
def tokenResolutionAmended (tok : String) (detected : List String) : Resolution :=
  match detected.find? (fun d => lowerStr d == tok) with
  | some d => Resolution.exactR d
  | none =>
    match class_translations.find?
        (fun er => lowerStr er.1 == tok && detected.contains er.2) with
    | some er => Resolution.exactR er.2
    | none =>
      match bestAbove (fuzzyCandidatesAmended tok detected) with
      | some b => Resolution.fuzzyR b
      | none => Resolution.unresolvedR

/-- The denominator produced by `simFrac` is always positive. -/
theorem simFrac_den_pos (a b : String) : 0 < (simFrac a b).2 := by
  unfold simFrac
  split
  · exact Nat.one_pos
  · split
    · exact Nat.succ_pos 4
    · dsimp only
      split
      · exact Nat.one_pos
      · rename_i h1 h2 h3
        exact Finset.card_pos.mpr (Finset.nonempty_iff_ne_empty.mpr h3)

/-- `simFrac` computes the rational value of `calculate_similarity`. -/
theorem calculate_similarity_eq_simFrac (a b : String) :
    calculate_similarity a b = ((simFrac a b).1 : ℚ) / ((simFrac a b).2 : ℚ) := by
  unfold calculate_similarity simFrac
  split
  · norm_num
  · split
    · norm_num
    · dsimp only
      split
      · norm_num
      · rfl

/-- The source's comparison `score > best_score` between two similarity
values is computed exactly by `fracLt` on their fraction representations. -/
theorem simFrac_lt_iff (a b c d : String) :
    fracLt (simFrac a b) (simFrac c d) = true ↔
      calculate_similarity a b < calculate_similarity c d := by
  rw [calculate_similarity_eq_simFrac a b, calculate_similarity_eq_simFrac c d]
  rw [div_lt_div_iff₀ (by exact_mod_cast simFrac_den_pos a b)
       (by exact_mod_cast simFrac_den_pos c d)]
  unfold fracLt
  rw [decide_eq_true_eq]
  constructor
  · intro h; exact_mod_cast h
  · intro h; exact_mod_cast h

/-- Correctness of the executable threshold test. -/
theorem simFrac_gt_threshold_iff (a b : String) :
    fracGtThreshold (simFrac a b) = true ↔ (3 : ℚ)/5 < calculate_similarity a b := by
  rw [calculate_similarity_eq_simFrac a b]
  rw [div_lt_div_iff₀ (by norm_num) (by exact_mod_cast simFrac_den_pos a b)]
  unfold fracGtThreshold
  rw [decide_eq_true_eq]
  constructor
  · intro h
    have : (3 * (simFrac a b).2 : ℚ) < (5 * (simFrac a b).1 : ℚ) := by exact_mod_cast h
    linarith
  · intro h
    have : (3 * (simFrac a b).2 : ℚ) < (5 * (simFrac a b).1 : ℚ) := by linarith
    exact_mod_cast this

example : simFrac "" "" = (1, 1) := by decide

example : simFrac "cta" "cat" = (3, 3) := by decide

example : simFrac "catdog" "cat" = (4, 5) := by decide

example : simFrac "ab" "bc" = (1, 3) := by decide

/-- Helper: on two distinct strings the substring branch of
`calculate_similarity` yields `4/5` and the Jaccard branch yields the
character-set quotient, whose union is never empty (an empty union forces
both strings empty, hence equal). -/
theorem calculate_similarity_cases (a b : String) (hne : a ≠ b) :
    (a.data <:+: b.data ∨ b.data <:+: a.data → calculate_similarity a b = 4/5) ∧
    (¬(a.data <:+: b.data ∨ b.data <:+: a.data) →
      calculate_similarity a b =
        ((a.data.toFinset ∩ b.data.toFinset).card : ℚ) /
          ((a.data.toFinset ∪ b.data.toFinset).card : ℚ)) := by
  constructor
  · intro hsub
    unfold calculate_similarity
    rw [if_neg hne, if_pos hsub]
  · intro hsub
    unfold calculate_similarity
    rw [if_neg hne, if_neg hsub]
    dsimp only
    rw [if_neg]
    intro hempty
    rcases Finset.union_eq_empty.mp hempty with ⟨ha, hb⟩
    apply hsub
    left
    have ha' : a.data = [] := by
      cases hda : a.data with
      | nil => rfl
      | cons c cs =>
          exfalso
          have : c ∈ a.data.toFinset := by rw [hda]; simp
          rw [ha] at this
          simp at this
    rw [ha']
    exact List.nil_infix

/-- `calculate_similarity` never returns a negative value. -/
theorem calculate_similarity_nonneg (a b : String) : 0 ≤ calculate_similarity a b := by
  unfold calculate_similarity
  split
  · norm_num
  · split
    · norm_num
    · dsimp only
      split
      · norm_num
      · positivity

/-- `calculate_similarity` never exceeds `1`. -/
theorem calculate_similarity_le_one (a b : String) : calculate_similarity a b ≤ 1 := by
  unfold calculate_similarity
  split
  · norm_num
  · split
    · norm_num
    · dsimp only
      split
      · norm_num
      · rename_i h1 h2 h3
        rw [div_le_one]
        · exact_mod_cast Finset.card_le_card Finset.inter_subset_union
        · have : 0 < (a.data.toFinset ∪ b.data.toFinset).card :=
            Finset.card_pos.mpr (Finset.nonempty_iff_ne_empty.mpr h3)
          exact_mod_cast this

/-- Claim C4, counterexample: the claim says `calculate_similarity` on two
empty strings returns `0.0`; in the source the exact-equality branch fires
first (`"" == ""`), so the function returns `1.0`, and the explicit
empty-union guard is dead code. -/
theorem c4_similarity_empty_counterexample : calculate_similarity "" "" ≠ 0 := by
  have h : calculate_similarity "" "" = 1 := by
    unfold calculate_similarity
    rw [if_pos rfl]
  rw [h]
  norm_num

/-- Claim C4, amended: `calculate_similarity` applied to two empty strings
returns `1.0`, because the exact-equality branch precedes the empty-union
check (which is therefore unreachable). -/
theorem c4_similarity_empty_amended : calculate_similarity "" "" = 1 := by
  unfold calculate_similarity
  rw [if_pos rfl]

/-- Claim C8, counterexample: the claim says `calculate_similarity` returns
`1.0` if and only if the two strings are equal; the Jaccard branch also
returns `1.0` whenever the two distinct strings have equal character sets
and neither is a substring of the other, e.g. the anagrams `cta` / `cat`. -/
theorem c8_similarity_one_iff_counterexample :
    calculate_similarity "cta" "cat" = 1 ∧ "cta" ≠ "cat" := by
  constructor
  · have h := (calculate_similarity_cases "cta" "cat" (by decide)).2 (by decide)
    rw [h]
    have h1 : (("cta" : String).data.toFinset ∩ ("cat" : String).data.toFinset).card = 3 := by
      decide
    have h2 : (("cta" : String).data.toFinset ∪ ("cat" : String).data.toFinset).card = 3 := by
      decide
    rw [h1, h2]
    norm_num
  · decide

/-- Claim C8, amended: `calculate_similarity` returns `1.0` if the strings
are equal; `0.8` if one is a substring of the other and they are unequal;
otherwise the Jaccard index of the two character sets (which can itself be
`1.0` for unequal strings with equal character sets); the result always
lies in `[0, 1]`. -/
theorem c8_similarity_branches (a b : String) :
    (a = b → calculate_similarity a b = 1) ∧
    (a ≠ b → (a.data <:+: b.data ∨ b.data <:+: a.data) →
      calculate_similarity a b = 4/5) ∧
    (a ≠ b → ¬(a.data <:+: b.data ∨ b.data <:+: a.data) →
      calculate_similarity a b =
        ((a.data.toFinset ∩ b.data.toFinset).card : ℚ) /
          ((a.data.toFinset ∪ b.data.toFinset).card : ℚ)) ∧
    0 ≤ calculate_similarity a b ∧ calculate_similarity a b ≤ 1 := by
  refine ⟨?_, fun hne => (calculate_similarity_cases a b hne).1,
    fun hne => (calculate_similarity_cases a b hne).2,
    calculate_similarity_nonneg a b, calculate_similarity_le_one a b⟩
  intro h
  subst h
  unfold calculate_similarity
  rw [if_pos rfl]

/-- Witness for the amended claim C8, instantiating each branch at a
concrete pair of strings. -/
theorem c8_similarity_branches_witness :
    calculate_similarity "ab" "ab" = 1 ∧
    calculate_similarity "ab" "abc" = 4/5 ∧
    calculate_similarity "ab" "cb" =
      ((("ab" : String).data.toFinset ∩ ("cb" : String).data.toFinset).card : ℚ) /
        ((("ab" : String).data.toFinset ∪ ("cb" : String).data.toFinset).card : ℚ) :=
  ⟨(c8_similarity_branches "ab" "ab").1 rfl,
   (c8_similarity_branches "ab" "abc").2.1 (by decide) (by decide),
   (c8_similarity_branches "ab" "cb").2.2.1 (by decide) (by decide)⟩

/-- Claim C9: `calculate_similarity` is symmetric in its two arguments —
the equality branch, the substring disjunction and the Jaccard index are
all invariant under swapping the strings. -/
theorem c9_similarity_symm (a b : String) :
    calculate_similarity a b = calculate_similarity b a := by
  by_cases hab : a = b
  · rw [hab]
  · unfold calculate_similarity
    rw [if_neg hab]
    rw [if_neg (show ¬ b = a from fun h => hab h.symm)]
    by_cases hsub : a.data <:+: b.data ∨ b.data <:+: a.data
    · rw [if_pos hsub, if_pos (Or.symm hsub)]
    · rw [if_neg hsub]
      rw [if_neg (show ¬(b.data <:+: a.data ∨ a.data <:+: b.data) from
        fun h => hsub (Or.symm h))]
      dsimp only
      rw [Finset.inter_comm, Finset.union_comm]

example : parse_user_classes "car, person;  bicycle" = ["car", "person", "bicycle"] := by
  decide

example : parse_user_classes "a b" = [] := by decide

example : parse_user_classes "" = [] := by decide

example : parse_user_classes "Кот и Собака!" = ["кот", "собака"] := by decide

example : parse_user_classes "a_b" = ["a_b"] := by decide

/-- Claim C5, counterexample: the claim's character class replaces `_` by a
space, so on input `a_b` it predicts no tokens; the source keeps `_`
(it is a `\w` character) and returns the single token `a_b`. -/
theorem c5_tokenize_counterexample :
    parse_user_classes "a_b" ≠ tokenizeClaim "a_b" := by decide

/-- The source character class coincides with the amended claim's class. -/
theorem keepChar_eq_amended (c : Char) : keepChar c = keepCharAmended c := by
  apply Bool.eq_iff_iff.mpr
  simp only [keepChar, pyIsWordChar, pyIsSpace, isCyrLowerChar, keepCharAmended,
    keepCharClaim, Bool.or_eq_true, Bool.and_eq_true, beq_iff_eq, decide_eq_true_eq]
  omega

/-- Dropping the empty pieces first does not change a filter that keeps
only pieces of length at least 2. -/
theorem filter_ne_nil_filter_len (l : List (List Char)) :
    ((l.filter fun t => t ≠ []).filter fun t => 2 ≤ t.length) =
      l.filter fun t => 2 ≤ t.length := by
  rw [List.filter_filter]
  apply List.filter_congr
  intro x _
  by_cases hx : 2 ≤ x.length
  · have hne : x ≠ [] := by
      intro h
      rw [h] at hx
      simp at hx
    simp [hx, hne]
  · simp [hx]

/-- Claim C5, amended: `parse_user_classes` behaves exactly as the claim
describes once the kept character class is extended with the underscore
(Python's `\w` keeps `_`): lower-case, replace every character that is not
alphanumeric, underscore, whitespace, comma, semicolon or a Cyrillic letter
with a space, split on runs of comma/semicolon/whitespace, discard tokens
shorter than 2 characters, preserve order; in particular empty or
symbol-only input yields the empty list. -/
theorem c5_tokenize_amended (text : String) :
    parse_user_classes text = tokenizeAmended text := by
  unfold parse_user_classes tokenizeAmended
  dsimp only
  have hmap : ((text.data.map pyLower).map fun c => if keepChar c then c else ' ')
      = (text.data.map pyLower).map fun c => if keepCharAmended c then c else ' ' := by
    apply List.map_congr_left
    intro a _
    rw [keepChar_eq_amended]
  rw [hmap, filter_ne_nil_filter_len]

example : match_user_classes_to_detected ["car"] ["автомобиль"] =
    (["автомобиль"], [], []) := by decide

example : match_user_classes_to_detected ["carr"] ["автомобиль"] =
    (["автомобиль"], [], [("carr", "автомобиль")]) := by decide

example : match_user_classes_to_detected ["kar"] ["автомобиль"] =
    ([], ["kar"], []) := by decide

example : match_user_classes_to_detected ["xyz123"] ["автомобиль"] =
    ([], ["xyz123"], []) := by decide

example : match_user_classes_to_detected ["автомобиль"] ["автомобиль"] =
    (["автомобиль"], [], []) := by decide

/-- A fuzzy update step either keeps the accumulator or records exactly
its candidate's target. -/
theorem fuzzyStep_some (tok : String) (acc : (ℕ × ℕ) × Option String)
    (cand target x : String)
    (h : (fuzzyStep tok acc cand target).2 = some x) :
    x = target ∨ acc.2 = some x := by
  unfold fuzzyStep at h
  dsimp only at h
  split at h
  · left
    exact (Option.some_inj.mp h).symm
  · right
    exact h

/-- The canonical-name pass of the fuzzy search only ever records members
of the scanned list. -/
theorem foldl_fuzzyStep_canonical_mem (tok : String) (detected : List String) :
    ∀ (l : List String) (acc : (ℕ × ℕ) × Option String),
      (∀ d ∈ l, d ∈ detected) → (∀ x, acc.2 = some x → x ∈ detected) →
      ∀ x, (l.foldl (fun a d => fuzzyStep tok a (lowerStr d) d) acc).2 = some x →
        x ∈ detected
  | [], _, _, hacc, x, h => hacc x h
  | d :: t, acc, hl, hacc, x, h => by
      apply foldl_fuzzyStep_canonical_mem tok detected t _
        (fun e he => hl e (List.mem_cons_of_mem _ he)) _ x h
      intro y hy
      rcases fuzzyStep_some tok acc (lowerStr d) d y hy with h1 | h1
      · rw [h1]
        exact hl d (List.mem_cons_self d t)
      · exact hacc y h1

/-- The vocabulary pass of the fuzzy search only ever records Russian
names that pass its detected-membership guard. -/
theorem foldl_fuzzyStep_vocab_mem (tok : String) (detected : List String) :
    ∀ (l : List (String × String)) (acc : (ℕ × ℕ) × Option String),
      (∀ x, acc.2 = some x → x ∈ detected) →
      ∀ x, (l.foldl (fun a er =>
          if detected.contains er.2 then fuzzyStep tok a (lowerStr er.1) er.2 else a)
        acc).2 = some x → x ∈ detected
  | [], _, hacc, x, h => hacc x h
  | er :: t, acc, hacc, x, h => by
      apply foldl_fuzzyStep_vocab_mem tok detected t _ _ x h
      intro y hy
      dsimp only at hy
      by_cases hg : detected.contains er.2
      · rw [if_pos hg] at hy
        rcases fuzzyStep_some tok acc (lowerStr er.1) er.2 y hy with h1 | h1
        · rw [h1]
          simpa using hg
        · exact hacc y h1
      · rw [if_neg hg] at hy
        exact hacc y hy

/-- The fuzzy search only resolves to a detected class. -/
theorem fuzzyBest_mem (tok : String) (detected : List String) (b : String)
    (h : fuzzyBest tok detected = some b) : b ∈ detected := by
  unfold fuzzyBest at h
  dsimp only at h
  apply foldl_fuzzyStep_vocab_mem tok detected class_translations _ _ b h
  intro x hx
  apply foldl_fuzzyStep_canonical_mem tok detected detected _ (fun d hd => hd) _ x hx
  intro y hy
  cases hy

/-- The exact alternate-language resolution only resolves to a detected
class. -/
theorem resolveExactAlternate_mem (tok : String) (detected : List String)
    (r : String) (h : resolveExactAlternate tok detected = some r) :
    r ∈ detected := by
  unfold resolveExactAlternate at h
  cases hf : class_translations.find? fun er =>
      tok == lowerStr er.1 && detected.contains er.2 with
  | none =>
      rw [hf] at h
      cases h
  | some er =>
      rw [hf] at h
      have hp := List.find?_some hf
      rw [Bool.and_eq_true] at hp
      have hr : er.2 = r := by
        simpa using h
      rw [← hr]
      simpa using hp.2

/-- The token loop body preserves the match invariant. -/
theorem processToken_inv (detected : List String) (acc : MatchAcc) (tok : String)
    (h : MatchInv detected acc) :
    MatchInv detected (processToken detected acc tok) := by
  obtain ⟨hnd, hsub, hsugg, hlen⟩ := h
  unfold processToken
  cases hc : resolveExactCanonical tok detected with
  | some d =>
    dsimp only
    by_cases hd : acc.valid.contains d
    · rw [if_pos hd]
      exact ⟨hnd, hsub, hsugg, hlen⟩
    · rw [if_neg hd]
      have hdm : d ∈ detected := List.mem_of_find?_eq_some hc
      have hdnot : d ∉ acc.valid := by simpa using hd
      refine ⟨?_, ?_, ?_, ?_⟩
      · simp [List.nodup_append, hnd, hdnot]
      · intro c hcm
        rcases List.mem_append.mp hcm with h1 | h1
        · exact hsub c h1
        · simp only [List.mem_singleton] at h1
          subst h1
          exact hdm
      · intro p hp
        obtain ⟨h1, h2, h3, h4⟩ := hsugg p hp
        exact ⟨List.mem_append_left _ h1, h2, h3, h4⟩
      · simp only [MatchAcc.mk.injEq, List.length_append, List.length_singleton]
        omega
  | none =>
    cases ha : resolveExactAlternate tok detected with
    | some r =>
      dsimp only
      by_cases hr : acc.valid.contains r
      · rw [if_pos hr]
        exact ⟨hnd, hsub, hsugg, hlen⟩
      · rw [if_neg hr]
        have hrm : r ∈ detected := resolveExactAlternate_mem tok detected r ha
        have hrnot : r ∉ acc.valid := by simpa using hr
        refine ⟨?_, ?_, ?_, ?_⟩
        · simp [List.nodup_append, hnd, hrnot]
        · intro c hcm
          rcases List.mem_append.mp hcm with h1 | h1
          · exact hsub c h1
          · simp only [List.mem_singleton] at h1
            subst h1
            exact hrm
        · intro p hp
          obtain ⟨h1, h2, h3, h4⟩ := hsugg p hp
          exact ⟨List.mem_append_left _ h1, h2, h3, h4⟩
        · simp only [List.length_append, List.length_singleton]
          omega
    | none =>
      cases hf : fuzzyBest tok detected with
      | some b =>
        dsimp only
        by_cases hb : acc.valid.contains b
        · rw [if_pos hb]
          exact ⟨hnd, hsub, hsugg, hlen⟩
        · rw [if_neg hb]
          have hbm : b ∈ detected := fuzzyBest_mem tok detected b hf
          have hbnot : b ∉ acc.valid := by simpa using hb
          refine ⟨?_, ?_, ?_, ?_⟩
          · simp [List.nodup_append, hnd, hbnot]
          · intro c hcm
            rcases List.mem_append.mp hcm with h1 | h1
            · exact hsub c h1
            · simp only [List.mem_singleton] at h1
              subst h1
              exact hbm
          · intro p hp
            rcases List.mem_append.mp hp with h1 | h1
            · obtain ⟨h1a, h2, h3, h4⟩ := hsugg p h1
              exact ⟨List.mem_append_left _ h1a, h2, h3, h4⟩
            · simp only [List.mem_singleton] at h1
              subst h1
              exact ⟨List.mem_append_right _ (by simp), hc, ha, hf⟩
          · simp only [List.length_append, List.length_singleton]
            omega
      | none =>
        exact ⟨hnd, hsub, hsugg, hlen⟩

/-- The whole token loop preserves the match invariant. -/
theorem foldl_processToken_inv (detected : List String) :
    ∀ (toks : List String) (acc : MatchAcc), MatchInv detected acc →
      MatchInv detected (toks.foldl (processToken detected) acc)
  | [], _, h => h
  | t :: ts, acc, h =>
      foldl_processToken_inv detected ts _ (processToken_inv detected acc t h)

/-- The match invariant holds of every `match_user_classes_to_detected`
run, starting from the empty accumulator. -/
theorem match_user_classes_inv (uc dc : List String) :
    MatchInv dc (uc.foldl (processToken dc) ⟨[], [], []⟩) := by
  apply foldl_processToken_inv
  refine ⟨List.nodup_nil, ?_, ?_, ?_⟩
  · intro c h
    cases h
  · intro p h
    cases h
  · simp

/-- Claim C1: once a session is in `processing_segmentation` (which, per
`handle_photo`, presupposes an available detector and the session fields
set), `perform_segmentation` resets the state to `waiting_photo` when the
segmentation call returns normally, while on an exception it sends the
generic `ERROR_PROCESSING` message and leaves the whole session — in
particular its state — unchanged. -/
theorem c1_perform_segmentation_state (s : Session) (sel : List String)
    (img : Bytes) (counts : List (String × ℕ)) (results : List (String × Bytes))
    (hstate : s.state = SessState.processing_segmentation)
    (hsel : s.selected_classes = some sel) (himg : s.image_bytes = some img)
    (hcnt : s.class_counts = some counts) :
    (perform_segmentation true s (Except.ok results)).1.state = SessState.waiting_photo ∧
    (perform_segmentation true s (Except.error ())).1 = s ∧
    OutMsg.text ERROR_PROCESSING ∈ (perform_segmentation true s (Except.error ())).2 ∧
    (perform_segmentation true s (Except.error ())).1.state =
      SessState.processing_segmentation := by
  refine ⟨?_, ?_, ?_, ?_⟩ <;>
    simp [perform_segmentation, hsel, himg, hcnt, hstate]

/-- Witness for claim C1 at a concrete session. -/
theorem c1_perform_segmentation_state_witness :
    (perform_segmentation true
        ⟨SessState.processing_segmentation, some [], some ["кот"],
          some [("кот", 1)], some [], some ["кот"]⟩
        (Except.ok [("кот", [])])).1.state = SessState.waiting_photo ∧
    (perform_segmentation true
        ⟨SessState.processing_segmentation, some [], some ["кот"],
          some [("кот", 1)], some [], some ["кот"]⟩
        (Except.error ())).1 =
      ⟨SessState.processing_segmentation, some [], some ["кот"],
        some [("кот", 1)], some [], some ["кот"]⟩ ∧
    OutMsg.text ERROR_PROCESSING ∈
      (perform_segmentation true
        ⟨SessState.processing_segmentation, some [], some ["кот"],
          some [("кот", 1)], some [], some ["кот"]⟩
        (Except.error ())).2 ∧
    (perform_segmentation true
        ⟨SessState.processing_segmentation, some [], some ["кот"],
          some [("кот", 1)], some [], some ["кот"]⟩
        (Except.error ())).1.state = SessState.processing_segmentation :=
  c1_perform_segmentation_state
    ⟨SessState.processing_segmentation, some [], some ["кот"],
      some [("кот", 1)], some [], some ["кот"]⟩
    ["кот"] [] [("кот", 1)] [("кот", [])] rfl rfl rfl rfl

/-- Claim C6: when detection succeeds but yields zero classes,
`handle_photo` answers with the status message and the no-objects message
and returns the prior session mapping untouched — no state change, no
stored image bytes, detected classes, counts or annotated image. -/
theorem c6_handle_photo_no_objects (prior : Option Session) (photoBytes : Bytes)
    (counts : List (String × ℕ)) (annotated : Bytes) :
    handle_photo true prior photoBytes (Except.ok ([], counts, annotated)) =
      (prior, [OutMsg.text PHOTO_RECEIVED, OutMsg.text ERROR_NO_OBJECTS]) := rfl

/-- Claim C2, counterexample: the claim says a token whose fuzzy
resolution target is already resolved is silently dropped, appearing in
neither output list; in the source the fuzzy branch's `else` appends such
a token to `invalid_classes`.  With `кот` detected, the token `кот`
resolves exactly and then `cta` fuzzy-resolves to `кот` (an anagram of its
English name `cat`, similarity `1.0`), which is already resolved — and
`cta` shows up in the unresolved list. -/
theorem c2_duplicate_drop_counterexample :
    match_user_classes_to_detected ["кот", "cta"] ["кот"] = (["кот"], ["cta"], []) ∧
    fuzzyBest "cta" ["кот"] = some "кот" := by decide

/-- Claim C2, amended: a token whose exact (canonical or alternate)
resolution target is already resolved is silently dropped — the
accumulator is returned unchanged, so the token reaches neither list; but
a token whose fuzzy resolution target is already resolved is appended to
the unresolved list. -/
theorem c2_duplicate_handling_amended (detected : List String) (acc : MatchAcc)
    (tok : String) :
    (∀ d, resolveExactCanonical tok detected = some d → d ∈ acc.valid →
      processToken detected acc tok = acc) ∧
    (resolveExactCanonical tok detected = none →
      ∀ r, resolveExactAlternate tok detected = some r → r ∈ acc.valid →
        processToken detected acc tok = acc) ∧
    (resolveExactCanonical tok detected = none →
      resolveExactAlternate tok detected = none →
      ∀ b, fuzzyBest tok detected = some b → b ∈ acc.valid →
        processToken detected acc tok =
          { acc with invalid := acc.invalid ++ [tok] }) := by
  refine ⟨?_, ?_, ?_⟩
  · intro d h hd
    simp [processToken, h, hd]
  · intro h0 r h hr
    simp [processToken, h0, h, hr]
  · intro h0 h1 b h hb
    simp [processToken, h0, h1, h, hb]

/-- Witness for the amended claim C2: an exact-canonical duplicate and an
exact-alternate duplicate leave the accumulator unchanged; a fuzzy
duplicate lands in the unresolved list. -/
theorem c2_duplicate_handling_amended_witness :
    processToken ["кот"] ⟨["кот"], [], []⟩ "кот" = ⟨["кот"], [], []⟩ ∧
    processToken ["кот"] ⟨["кот"], [], []⟩ "cat" = ⟨["кот"], [], []⟩ ∧
    processToken ["кот"] ⟨["кот"], [], []⟩ "cta" = ⟨["кот"], ["cta"], []⟩ :=
  ⟨(c2_duplicate_handling_amended ["кот"] ⟨["кот"], [], []⟩ "кот").1
      "кот" (by decide) (by decide),
   (c2_duplicate_handling_amended ["кот"] ⟨["кот"], [], []⟩ "cat").2.1
      (by decide) "кот" (by decide) (by decide),
   (c2_duplicate_handling_amended ["кот"] ⟨["кот"], [], []⟩ "cta").2.2
      (by decide) (by decide) "кот" (by decide) (by decide)⟩

/-- Claim C7: the resolved list of every match is duplicate-free and drawn
from the detected classes, and when `handle_class_selection` stores a
selection (non-empty parse, non-empty resolution) the stored
`selected_classes` is exactly that resolved list, hence a subset of the
session's `detected_classes`. -/
theorem c7_selected_subset_detected :
    (∀ uc dc : List String,
      (match_user_classes_to_detected uc dc).1.Nodup ∧
      ∀ c ∈ (match_user_classes_to_detected uc dc).1, c ∈ dc) ∧
    (∀ (s : Session) (text : String) (dc : List String) (cnt : List (String × ℕ)),
      s.detected_classes = some dc → s.class_counts = some cnt →
      parse_user_classes text ≠ [] →
      (match_user_classes_to_detected (parse_user_classes text) dc).1 ≠ [] →
      (handle_class_selection s text).1.selected_classes =
        some (match_user_classes_to_detected (parse_user_classes text) dc).1 ∧
      ∀ c ∈ (match_user_classes_to_detected (parse_user_classes text) dc).1, c ∈ dc) := by
  constructor
  · intro uc dc
    have h := match_user_classes_inv uc dc
    exact ⟨h.1, h.2.1⟩
  · intro s text dc cnt hd hc hp hm
    constructor
    · unfold handle_class_selection
      rw [hd, hc]
      dsimp only
      rw [if_neg hp]
      rw [if_neg hm]
    · have h := match_user_classes_inv (parse_user_classes text) dc
      exact h.2.1

/-- Witness for claim C7 at a concrete session and text. -/
theorem c7_selected_subset_detected_witness :
    (handle_class_selection
        ⟨SessState.waiting_class_selection, some [], some ["кот"],
          some [("кот", 1)], some [], none⟩
        "кот").1.selected_classes = some ["кот"] ∧
    "кот" ∈ (["кот"] : List String) := by
  have h := c7_selected_subset_detected.2
    ⟨SessState.waiting_class_selection, some [], some ["кот"],
      some [("кот", 1)], some [], none⟩
    "кот" ["кот"] [("кот", 1)] rfl rfl (by decide) (by decide)
  have heq : (match_user_classes_to_detected (parse_user_classes "кот") ["кот"]).1 =
      ["кот"] := by decide
  refine ⟨?_, by simp⟩
  rw [h.1, heq]

/-- Claim C10: in every match result, each corrections pair records a
token that resolved neither exactly-canonically nor exactly-alternately
but did resolve fuzzily to precisely the recorded class; that class is in
the resolved list; and there are never more corrections than resolved
classes. -/
theorem c10_corrections_invariants (uc dc : List String) :
    (∀ p ∈ (match_user_classes_to_detected uc dc).2.2,
      p.2 ∈ (match_user_classes_to_detected uc dc).1 ∧
      resolveExactCanonical p.1 dc = none ∧
      resolveExactAlternate p.1 dc = none ∧
      fuzzyBest p.1 dc = some p.2) ∧
    (match_user_classes_to_detected uc dc).2.2.length ≤
      (match_user_classes_to_detected uc dc).1.length := by
  have h := match_user_classes_inv uc dc
  exact ⟨h.2.2.1, h.2.2.2⟩

/-- Witness for claim C10 at a concrete fuzzy correction. -/
theorem c10_corrections_invariants_witness :
    "автомобиль" ∈ (match_user_classes_to_detected ["carr"] ["автомобиль"]).1 ∧
    resolveExactCanonical "carr" ["автомобиль"] = none ∧
    resolveExactAlternate "carr" ["автомобиль"] = none ∧
    fuzzyBest "carr" ["автомобиль"] = some "автомобиль" :=
  (c10_corrections_invariants ["carr"] ["автомобиль"]).1
    ("carr", "автомобиль") (by decide)

/-- Claim C3, counterexample: the claim scans alternate-language fuzzy
candidates in `detectedClasses` order, the source scans them in
vocabulary-table order.  With detected classes `[собака, кот]` (dog before
cat) the token `catdog` scores `0.8` against both alternates `cat` and
`dog`; the claim's order tries `dog` (alternate of the first detected
class) first and resolves to `собака`, while the source's vocabulary order
tries `cat` (table position 16) before `dog` (position 17) and resolves to
`кот`. -/
theorem c3_resolution_order_counterexample :
    tokenResolution "catdog" ["собака", "кот"] = Resolution.fuzzyR "кот" ∧
    tokenResolutionClaim "catdog" ["собака", "кот"] = Resolution.fuzzyR "собака" ∧
    Resolution.fuzzyR "кот" ≠ Resolution.fuzzyR "собака" := by decide

/-- Cross-multiplication computes the rational strict order on
positive-denominator fractions. -/
theorem fracLt_iff_ratio (a b : ℕ × ℕ) (ha : 0 < a.2) (hb : 0 < b.2) :
    fracLt a b = true ↔ ratioQ a < ratioQ b := by
  unfold fracLt ratioQ
  rw [div_lt_div_iff₀ (by exact_mod_cast ha) (by exact_mod_cast hb)]
  rw [decide_eq_true_eq]
  constructor
  · intro h; exact_mod_cast h
  · intro h; exact_mod_cast h

/-- Cross-multiplication computes the rational threshold test on a
positive-denominator fraction. -/
theorem fracGtThreshold_iff_ratio (a : ℕ × ℕ) (ha : 0 < a.2) :
    fracGtThreshold a = true ↔ (3 : ℚ)/5 < ratioQ a := by
  unfold fracGtThreshold ratioQ
  rw [div_lt_div_iff₀ (by norm_num) (by exact_mod_cast ha)]
  rw [decide_eq_true_eq]
  constructor
  · intro h
    have h2 : (3 * a.2 : ℚ) < (5 * a.1 : ℚ) := by exact_mod_cast h
    linarith
  · intro h
    have h2 : (3 * a.2 : ℚ) < (5 * a.1 : ℚ) := by linarith
    exact_mod_cast h2

/-- A guarded fold is the fold over the filtered list. -/
theorem foldl_guard_filter {α β : Type _} (p : β → Bool) (f : α → β → α) :
    ∀ (l : List β) (init : α),
      l.foldl (fun a x => if p x then f a x else a) init =
        (l.filter p).foldl f init
  | [], _ => rfl
  | x :: t, init => by
      by_cases hp : p x
      · simp only [List.foldl_cons, List.filter_cons, hp, if_pos]
        exact foldl_guard_filter p f t (f init x)
      · simp only [List.foldl_cons, List.filter_cons, hp, Bool.false_eq_true,
          if_neg, if_false]
        exact foldl_guard_filter p f t init

/-- `fuzzyBest` is the source's selection rule over the source's candidate
list. -/
theorem fuzzyBest_eq_selectBest (tok : String) (detected : List String) :
    fuzzyBest tok detected =
      (((fuzzyCandidates tok detected).foldl stepFrac (((0 : ℕ), (1 : ℕ)), none))).2 := by
  unfold fuzzyBest fuzzyCandidates
  dsimp only
  rw [List.foldl_append, List.foldl_map, List.foldl_map, foldl_guard_filter]
  rfl

/-- Every candidate score has a positive denominator. -/
theorem fuzzyCandidates_den_pos (tok : String) (detected : List String) :
    ∀ c ∈ fuzzyCandidates tok detected, 0 < c.1.2 := by
  intro c hc
  unfold fuzzyCandidates at hc
  rcases List.mem_append.mp hc with h | h
  · rcases List.mem_map.mp h with ⟨d, _, hd⟩
    rw [← hd]
    exact simFrac_den_pos tok (lowerStr d)
  · rcases List.mem_map.mp h with ⟨er, _, her⟩
    rw [← her]
    exact simFrac_den_pos tok (lowerStr er.1)

/-- The amended claim's candidate list is the source's candidate list with
scores read off as rationals. -/
theorem fuzzyCandidatesAmended_eq (tok : String) (detected : List String) :
    fuzzyCandidatesAmended tok detected =
      (fuzzyCandidates tok detected).map toQCand := by
  unfold fuzzyCandidatesAmended fuzzyCandidates
  rw [List.map_append, List.map_map, List.map_map]
  congr 1
  · apply List.map_congr_left
    intro d _
    show (calculate_similarity tok (lowerStr d), d) = toQCand (simFrac tok (lowerStr d), d)
    unfold toQCand ratioQ
    rw [calculate_similarity_eq_simFrac]
  · apply List.map_congr_left
    intro er _
    show (calculate_similarity tok (lowerStr er.1), er.2) =
      toQCand (simFrac tok (lowerStr er.1), er.2)
    unfold toQCand ratioQ
    rw [calculate_similarity_eq_simFrac]

/-- The fraction-scored fold computes the rationally scored fold: same
recorded best, and the running best score keeps a positive denominator and
the same rational value. -/
theorem foldl_stepFrac_toQ :
    ∀ (l : List ((ℕ × ℕ) × String)) (acc : (ℕ × ℕ) × Option String),
      0 < acc.1.2 → (∀ c ∈ l, 0 < c.1.2) →
      0 < (l.foldl stepFrac acc).1.2 ∧
      ratioQ (l.foldl stepFrac acc).1 =
        ((l.map toQCand).foldl stepQ (ratioQ acc.1, acc.2)).1 ∧
      (l.foldl stepFrac acc).2 =
        ((l.map toQCand).foldl stepQ (ratioQ acc.1, acc.2)).2
  | [], acc, hacc, _ => ⟨hacc, rfl, rfl⟩
  | c :: t, acc, hacc, hl => by
      have hc : 0 < c.1.2 := hl c (List.mem_cons_self c t)
      have ht : ∀ x ∈ t, 0 < x.1.2 := fun x hx => hl x (List.mem_cons_of_mem c hx)
      rw [List.foldl_cons, List.map_cons, List.foldl_cons]
      by_cases hcond : (fracLt acc.1 c.1 && fracGtThreshold c.1) = true
      · have hcondQ : ratioQ acc.1 < ratioQ c.1 ∧ (3 : ℚ)/5 < ratioQ c.1 := by
          rw [Bool.and_eq_true] at hcond
          exact ⟨(fracLt_iff_ratio acc.1 c.1 hacc hc).mp hcond.1,
            (fracGtThreshold_iff_ratio c.1 hc).mp hcond.2⟩
        have h1 : stepFrac acc c = (c.1, some c.2) := by
          unfold stepFrac
          rw [if_pos hcond]
        have h2 : stepQ (ratioQ acc.1, acc.2) (toQCand c) = (ratioQ c.1, some c.2) := by
          unfold stepQ toQCand
          rw [if_pos hcondQ]
        rw [h1, h2]
        exact foldl_stepFrac_toQ t (c.1, some c.2) hc ht
      · have hcondQ : ¬(ratioQ acc.1 < ratioQ c.1 ∧ (3 : ℚ)/5 < ratioQ c.1) := by
          intro hq
          apply hcond
          rw [Bool.and_eq_true]
          exact ⟨(fracLt_iff_ratio acc.1 c.1 hacc hc).mpr hq.1,
            (fracGtThreshold_iff_ratio c.1 hc).mpr hq.2⟩
        have h1 : stepFrac acc c = acc := by
          unfold stepFrac
          rw [if_neg (by simpa using hcond)]
        have h2 : stepQ (ratioQ acc.1, acc.2) (toQCand c) = (ratioQ acc.1, acc.2) := by
          unfold stepQ toQCand
          rw [if_neg hcondQ]
        rw [h1, h2]
        exact foldl_stepFrac_toQ t acc hacc ht

/-- The base is a lower bound of `maxFrom`. -/
theorem le_maxFrom (s : ℚ) : ∀ l : List (ℚ × String), s ≤ maxFrom s l
  | [] => le_refl s
  | c :: t => le_trans (le_max_left s c.1) (le_maxFrom (max s c.1) t)

/-- Raising the base of `maxFrom` takes a max with it. -/
theorem maxFrom_base_max (a b : ℚ) (h : b ≤ a) :
    ∀ l : List (ℚ × String), maxFrom a l = max a (maxFrom b l)
  | [] => by
      unfold maxFrom
      simp [max_eq_left h]
  | c :: t => by
      show maxFrom (max a c.1) t = max a (maxFrom (max b c.1) t)
      rw [maxFrom_base_max (max a c.1) (max b c.1) (max_le_max h (le_refl c.1)) t]
      have hc : c.1 ≤ maxFrom (max b c.1) t :=
        le_trans (le_max_right b c.1) (le_maxFrom _ t)
      rw [max_assoc, max_eq_right hc]

/-- `maxFrom` is attained at the base or at some candidate. -/
theorem maxFrom_attained (s : ℚ) :
    ∀ l : List (ℚ × String), maxFrom s l = s ∨ ∃ c ∈ l, c.1 = maxFrom s l
  | [] => Or.inl rfl
  | c :: t => by
      have hshow : maxFrom s (c :: t) = maxFrom (max s c.1) t := rfl
      rcases maxFrom_attained (max s c.1) t with h | ⟨d, hd, hde⟩
      · rcases le_total s c.1 with hle | hle
        · right
          refine ⟨c, List.mem_cons_self c t, ?_⟩
          rw [hshow, h, max_eq_right hle]
        · left
          rw [hshow, h, max_eq_left hle]
      · right
        refine ⟨d, List.mem_cons_of_mem c hd, ?_⟩
        rw [hshow]
        exact hde

/-- Pointwise equal predicates find the same element. -/
theorem find?_congr_pred {α : Type _} (p q : α → Bool) :
    ∀ l : List α, (∀ x ∈ l, p x = q x) → l.find? p = l.find? q
  | [], _ => rfl
  | x :: t, h => by
      have hx := h x (List.mem_cons_self x t)
      by_cases hp : p x
      · rw [List.find?_cons_of_pos t hp, List.find?_cons_of_pos t (hx ▸ hp)]
      · have hq : ¬ q x = true := by
          rw [← hx]
          exact hp
        rw [List.find?_cons_of_neg t (by simpa using hp),
          List.find?_cons_of_neg t (by simpa using hq)]
        exact find?_congr_pred p q t fun y hy => h y (List.mem_cons_of_mem x hy)

/-- The rationally scored fuzzy fold returns the first candidate whose
score strictly exceeds the initial score and the `0.6` threshold and
attains the overall maximum; when no candidate qualifies it returns the
initial accumulator unchanged. -/
theorem foldl_stepQ_eq_find :
    ∀ (l : List (ℚ × String)) (s : ℚ) (m : Option String),
      l.foldl stepQ (s, m) =
        match l.find? (fun c => decide (s < c.1) && decide ((3 : ℚ)/5 < c.1) &&
            decide (c.1 = maxFrom s l)) with
        | some c => (c.1, some c.2)
        | none => (s, m)
  | [], _, _ => rfl
  | c :: t, s, m => by
      rw [List.foldl_cons]
      have hmaxcons : maxFrom s (c :: t) = maxFrom (max s c.1) t := rfl
      by_cases hA : s < c.1 ∧ (3 : ℚ)/5 < c.1
      · have hstep : stepQ (s, m) c = (c.1, some c.2) := by
          unfold stepQ
          rw [if_pos hA]
        rw [hstep, foldl_stepQ_eq_find t c.1 (some c.2)]
        have hmax : maxFrom s (c :: t) = maxFrom c.1 t := by
          rw [hmaxcons, max_eq_right (le_of_lt hA.1)]
        by_cases hattain : c.1 = maxFrom c.1 t
        · have houter : (c :: t).find? (fun d => decide (s < d.1) &&
              decide ((3 : ℚ)/5 < d.1) && decide (d.1 = maxFrom s (c :: t))) = some c := by
            apply List.find?_cons_of_pos
            rw [hmax]
            simp only [Bool.and_eq_true, decide_eq_true_eq]
            exact ⟨⟨hA.1, hA.2⟩, hattain⟩
          have hinner : t.find? (fun d => decide (c.1 < d.1) &&
              decide ((3 : ℚ)/5 < d.1) && decide (d.1 = maxFrom c.1 t)) = none := by
            rw [List.find?_eq_none]
            intro d _
            simp only [Bool.and_eq_true, decide_eq_true_eq, not_and]
            intro h1 h3
            rw [h3, ← hattain] at h1
            exact absurd h1.1 (lt_irrefl c.1)
          rw [houter, hinner]
        · have hlt : c.1 < maxFrom c.1 t :=
            lt_of_le_of_ne (le_maxFrom c.1 t) hattain
          have houter : (c :: t).find? (fun d => decide (s < d.1) &&
              decide ((3 : ℚ)/5 < d.1) && decide (d.1 = maxFrom s (c :: t))) =
              t.find? (fun d => decide (s < d.1) &&
                decide ((3 : ℚ)/5 < d.1) && decide (d.1 = maxFrom s (c :: t))) := by
            apply List.find?_cons_of_neg
            rw [hmax]
            simp only [Bool.and_eq_true, decide_eq_true_eq, not_and]
            intro _ h
            exact hattain h
          rw [houter]
          have hcongr : t.find? (fun d => decide (s < d.1) &&
              decide ((3 : ℚ)/5 < d.1) && decide (d.1 = maxFrom s (c :: t))) =
              t.find? (fun d => decide (c.1 < d.1) &&
                decide ((3 : ℚ)/5 < d.1) && decide (d.1 = maxFrom c.1 t)) := by
            apply find?_congr_pred
            intro d _
            rw [hmax]
            by_cases hd3 : d.1 = maxFrom c.1 t
            · have hdc : c.1 < d.1 := by
                rw [hd3]
                exact hlt
              have hds : s < d.1 := lt_trans hA.1 hdc
              rw [decide_eq_true hds, decide_eq_true hdc]
            · simp [hd3]
          rw [hcongr]
          have hsome : ∃ d ∈ t, (decide (c.1 < d.1) &&
              decide ((3 : ℚ)/5 < d.1) && decide (d.1 = maxFrom c.1 t)) = true := by
            rcases maxFrom_attained c.1 t with h | ⟨d, hd, hde⟩
            · rw [h] at hlt
              exact absurd hlt (lt_irrefl c.1)
            · refine ⟨d, hd, ?_⟩
              have hdc : c.1 < d.1 := by
                rw [hde]
                exact hlt
              have hd35 : (3 : ℚ)/5 < d.1 := lt_trans hA.2 hdc
              rw [decide_eq_true hdc, decide_eq_true hd35, decide_eq_true hde]
              rfl
          have hisSome : (t.find? fun d => decide (c.1 < d.1) &&
              decide ((3 : ℚ)/5 < d.1) && decide (d.1 = maxFrom c.1 t)).isSome := by
            rw [List.find?_isSome]
            exact hsome
          rcases Option.isSome_iff_exists.mp hisSome with ⟨d, hdfind⟩
          rw [hdfind]
      · have hstep : stepQ (s, m) c = (s, m) := by
          unfold stepQ
          rw [if_neg hA]
        rw [hstep, foldl_stepQ_eq_find t s m]
        have houter : (c :: t).find? (fun d => decide (s < d.1) &&
            decide ((3 : ℚ)/5 < d.1) && decide (d.1 = maxFrom s (c :: t))) =
            t.find? (fun d => decide (s < d.1) &&
              decide ((3 : ℚ)/5 < d.1) && decide (d.1 = maxFrom s (c :: t))) := by
          apply List.find?_cons_of_neg
          simp only [Bool.and_eq_true, decide_eq_true_eq, not_and]
          intro h12 _
          exact hA h12
        rw [houter]
        rcases le_or_lt c.1 s with hcs | hsc
        · have hbase : maxFrom s (c :: t) = maxFrom s t := by
            rw [hmaxcons, max_eq_left hcs]
          rw [hbase]
        · have hc35 : c.1 ≤ (3 : ℚ)/5 := by
            by_contra hh
            exact hA ⟨hsc, lt_of_not_le hh⟩
          have hbase : maxFrom s (c :: t) = max c.1 (maxFrom s t) := by
            rw [hmaxcons, max_eq_right (le_of_lt hsc)]
            exact maxFrom_base_max c.1 s (le_of_lt hsc) t
          have hcongr : t.find? (fun d => decide (s < d.1) &&
              decide ((3 : ℚ)/5 < d.1) && decide (d.1 = maxFrom s (c :: t))) =
              t.find? (fun d => decide (s < d.1) &&
                decide ((3 : ℚ)/5 < d.1) && decide (d.1 = maxFrom s t)) := by
            apply find?_congr_pred
            intro d _
            rw [hbase]
            by_cases hd35 : (3 : ℚ)/5 < d.1
            · have hdc : c.1 < d.1 := lt_of_le_of_lt hc35 hd35
              have hiff : d.1 = max c.1 (maxFrom s t) ↔ d.1 = maxFrom s t := by
                constructor
                · intro h
                  rcases max_cases c.1 (maxFrom s t) with ⟨hm, hle⟩ | ⟨hm, _⟩
                  · rw [hm] at h
                    exact absurd h (ne_of_gt hdc)
                  · rw [hm] at h
                    exact h
                · intro h
                  rw [max_eq_right (le_of_lt (h ▸ hdc))]
                  exact h
              congr 1
              exact decide_eq_decide.mpr hiff
            · simp [hd35]
          rw [hcongr]

/-- The fold-based selection from score `0` picks exactly the first
candidate above the threshold attaining the maximal score. -/
theorem selectBestQ_eq_bestAbove (cands : List (ℚ × String)) :
    selectBestQ cands = bestAbove cands := by
  unfold selectBestQ bestAbove
  rw [foldl_stepQ_eq_find cands 0 none]
  have hcongr : cands.find? (fun c => decide ((0 : ℚ) < c.1) &&
      decide ((3 : ℚ)/5 < c.1) && decide (c.1 = maxFrom 0 cands)) =
      cands.find? (fun c => decide ((3 : ℚ)/5 < c.1) &&
        decide (c.1 = maxFrom 0 cands)) := by
    apply find?_congr_pred
    intro c _
    by_cases h35 : (3 : ℚ)/5 < c.1
    · have h0 : (0 : ℚ) < c.1 := lt_trans (by norm_num) h35
      rw [decide_eq_true h0, Bool.true_and]
    · simp [h35]
  rw [hcongr]
  cases cands.find? (fun c => decide ((3 : ℚ)/5 < c.1) &&
      decide (c.1 = maxFrom 0 cands)) with
  | none => rfl
  | some c => rfl

/-- The source's fuzzy search computes the claim's selection rule over the
rationally scored candidate list. -/
theorem fuzzyBest_eq_bestAbove (tok : String) (detected : List String) :
    fuzzyBest tok detected = bestAbove (fuzzyCandidatesAmended tok detected) := by
  rw [fuzzyBest_eq_selectBest, fuzzyCandidatesAmended_eq, ← selectBestQ_eq_bestAbove]
  unfold selectBestQ
  have h := foldl_stepFrac_toQ (fuzzyCandidates tok detected) (((0 : ℕ), (1 : ℕ)), none)
    (by norm_num) (fuzzyCandidates_den_pos tok detected)
  have h0 : ratioQ ((0 : ℕ), (1 : ℕ)) = 0 := by
    unfold ratioQ
    norm_num
  dsimp only at h
  rw [h0] at h
  exact h.2.2

/-- Claim C3, amended: for every token the source resolves in order —
case-insensitive exact canonical match, case-insensitive exact
alternate-language match, then fuzzy matching that keeps the single
highest-scoring candidate with similarity strictly above `0.6`, ties
broken in favour of the first candidate encountered, where the candidates
are the canonical names in `detectedClasses` order followed by the
alternate names of detected classes in vocabulary-table order (not in
`detectedClasses` order as the claim stated); a token with no candidate
above the threshold is unresolved. -/
theorem c3_resolution_order_amended (tok : String) (detected : List String) :
    tokenResolution tok detected = tokenResolutionAmended tok detected := by
  unfold tokenResolution tokenResolutionAmended
  have h1 : resolveExactCanonical tok detected =
      detected.find? (fun d => lowerStr d == tok) := by
    unfold resolveExactCanonical
    apply find?_congr_pred
    intro d _
    apply Bool.eq_iff_iff.mpr
    simp only [beq_iff_eq]
    exact eq_comm
  have h2 : resolveExactAlternate tok detected =
      (class_translations.find?
        (fun er => lowerStr er.1 == tok && detected.contains er.2)).map
          fun er => er.2 := by
    unfold resolveExactAlternate
    rw [find?_congr_pred
      (fun er : String × String => tok == lowerStr er.1 && detected.contains er.2)
      (fun er : String × String => lowerStr er.1 == tok && detected.contains er.2)
      class_translations ?_]
    intro er _
    apply Bool.eq_iff_iff.mpr
    simp only [Bool.and_eq_true, beq_iff_eq]
    constructor
    · rintro ⟨ha, hb⟩
      exact ⟨ha.symm, hb⟩
    · rintro ⟨ha, hb⟩
      exact ⟨ha.symm, hb⟩
  rw [h1]
  cases hfind : detected.find? (fun d => lowerStr d == tok) with
  | some d => rfl
  | none =>
    dsimp only
    rw [h2]
    cases halt : class_translations.find?
        (fun er => lowerStr er.1 == tok && detected.contains er.2) with
    | some er => rfl
    | none =>
      dsimp only
      rw [fuzzyBest_eq_bestAbove]
      rfl

end BotCV
